import Mathlib

/-!
Verification development for the MinuteMaster meeting-minutes application.

The application records meeting audio in a browser wizard, transcribes it via
an external speech-to-text API, classifies transcript segments, lets the user
assign speaker names, and exports two Word documents.  The definitions below
are shallow embeddings of the JavaScript source:

* `crypto-utils.js` — API-key encryption (`encrypt` / `decrypt`);
* `server.js` — the Express routes `/api/auth/login`,
  `/api/extract-speaker-snippets`, `/api/generate-documents`;
* the front-end wizard code bundled with `server.js` — step machine,
  transcript review, speaker assignment and export handlers.

Machine integers do not occur; times are rationals, byte buffers are
`List Nat`.  External library primitives (AES-256-GCM, PBKDF2, base64 and
UTF-8 codecs, bcrypt) are abstracted as parameters, with their documented
guarantees taken as hypotheses; everything the repository itself computes is
modelled concretely.
-/

namespace MinuteMaster

/-! ## Crypto module (`crypto-utils.js`) -/

/-- Abstract interface to the Node `crypto` / `Buffer` primitives used by
`crypto-utils.js`.  `aesGcmEnc key iv plaintext` returns the ciphertext and
the 16-byte GCM authentication tag; `aesGcmDec key iv tag ciphertext` returns
`none` when the library call throws (bad IV/tag length or failed
authentication). -/
structure CryptoPrims where
  aesGcmEnc : List Nat → List Nat → List Nat → List Nat × List Nat
  aesGcmDec : List Nat → List Nat → List Nat → List Nat → Option (List Nat)
  pbkdf2 : List Nat → List Nat → List Nat
  utf8Enc : String → List Nat
  utf8Dec : List Nat → String
  toBase64 : List Nat → String
  fromBase64 : String → List Nat

/-- `SALT_LENGTH` from `crypto-utils.js`. -/
def SALT_LENGTH : Nat := 64

/-- `IV_LENGTH` from `crypto-utils.js`. -/
def IV_LENGTH : Nat := 16

/-- `TAG_LENGTH` from `crypto-utils.js`. -/
def TAG_LENGTH : Nat := 16

/-- `TAG_POSITION = SALT_LENGTH + IV_LENGTH`. -/
def TAG_POSITION : Nat := SALT_LENGTH + IV_LENGTH

/-- `ENCRYPTED_POSITION = TAG_POSITION + TAG_LENGTH`. -/
def ENCRYPTED_POSITION : Nat := TAG_POSITION + TAG_LENGTH

/-- `Buffer.subarray(i, j)` on a byte list. -/
def subarray (b : List Nat) (i j : Nat) : List Nat :=
  (b.drop i).take (j - i)

/-- `encrypt` from `crypto-utils.js`.  The JS function returns `null` for a
falsy argument (`undefined` or the empty string); otherwise it derives a key
with PBKDF2 from the machine key and a random salt, encrypts with
AES-256-GCM under a random IV, and base64-encodes `salt ++ iv ++ tag ++ ct`.
The random salt and IV are parameters here. -/
def encrypt (P : CryptoPrims) (machineKey salt iv : List Nat)
    (text : Option String) : Option String :=
  match text with
  | none => none
  | some t =>
    if t = "" then none
    else
      let key := P.pbkdf2 machineKey salt
      let encTag := P.aesGcmEnc key iv (P.utf8Enc t)
      some (P.toBase64 (salt ++ iv ++ encTag.2 ++ encTag.1))

/-- `decrypt` from `crypto-utils.js`.  Returns `null` for a falsy argument;
otherwise base64-decodes, slices off salt/iv/tag at the fixed offsets,
re-derives the key and decrypts.  The JS body is wrapped in `try/catch`
returning `null`; the catch is modelled by `aesGcmDec` returning `none`. -/
def decrypt (P : CryptoPrims) (machineKey : List Nat)
    (encryptedData : Option String) : Option String :=
  match encryptedData with
  | none => none
  | some s =>
    if s = "" then none
    else
      let buffer := P.fromBase64 s
      let salt := subarray buffer 0 SALT_LENGTH
      let iv := subarray buffer SALT_LENGTH TAG_POSITION
      let tag := subarray buffer TAG_POSITION ENCRYPTED_POSITION
      let encrypted := buffer.drop ENCRYPTED_POSITION
      let key := P.pbkdf2 machineKey salt
      match P.aesGcmDec key iv tag encrypted with
      | some pt => some (P.utf8Dec pt)
      | none => none

theorem subarray_zero (b : List Nat) (j : Nat) : subarray b 0 j = b.take j := by
  simp [subarray]

/-- Slicing the packed buffer `salt ++ iv ++ tag ++ ct` at the fixed offsets
recovers the four components. -/
theorem layout_slices (salt iv tag ct : List Nat)
    (hs : salt.length = 64) (hiv : iv.length = 16) (htag : tag.length = 16) :
    subarray (salt ++ iv ++ tag ++ ct) 0 SALT_LENGTH = salt ∧
    subarray (salt ++ iv ++ tag ++ ct) SALT_LENGTH TAG_POSITION = iv ∧
    subarray (salt ++ iv ++ tag ++ ct) TAG_POSITION ENCRYPTED_POSITION = tag ∧
    (salt ++ iv ++ tag ++ ct).drop ENCRYPTED_POSITION = ct := by
  have hassoc : salt ++ iv ++ tag ++ ct = salt ++ (iv ++ (tag ++ ct)) := by
    simp [List.append_assoc]
  have hdrop64 : (salt ++ iv ++ tag ++ ct).drop 64 = iv ++ tag ++ ct := by
    rw [hassoc, List.drop_left' hs, List.append_assoc]
  have hdrop80 : (salt ++ iv ++ tag ++ ct).drop 80 = tag ++ ct := by
    have : (salt ++ iv ++ tag ++ ct).drop 80
        = ((salt ++ iv ++ tag ++ ct).drop 64).drop 16 := by
      rw [List.drop_drop]
    rw [this, hdrop64, List.append_assoc, List.drop_left' hiv]
  have hdrop96 : (salt ++ iv ++ tag ++ ct).drop 96 = ct := by
    have : (salt ++ iv ++ tag ++ ct).drop 96
        = ((salt ++ iv ++ tag ++ ct).drop 80).drop 16 := by
      rw [List.drop_drop]
    rw [this, hdrop80, List.drop_left' htag]
  refine ⟨?_, ?_, ?_, ?_⟩
  · show ((salt ++ iv ++ tag ++ ct).drop 0).take 64 = salt
    rw [List.drop_zero, hassoc, List.take_left' hs]
  · show ((salt ++ iv ++ tag ++ ct).drop 64).take 16 = iv
    rw [hdrop64, List.append_assoc, List.take_left' hiv]
  · show ((salt ++ iv ++ tag ++ ct).drop 80).take 16 = tag
    rw [hdrop80, List.take_left' htag]
  · exact hdrop96

/-- Claim C1 (amended): for every **non-empty** plaintext, decrypting the
result of encryption returns the original plaintext, for any values of the
random salt and IV drawn during encryption, under the same machine key.  The
hypotheses are exactly the library guarantees the spec appeals to: the GCM
tag is 16 bytes, authenticated decryption inverts encryption, UTF-8 and
base64 decoding invert encoding, and base64 output is non-empty. -/
theorem encrypt_decrypt_roundtrip (P : CryptoPrims) (machineKey salt iv : List Nat)
    (t : String)
    (hs : salt.length = 64) (hiv : iv.length = 16) (ht : t ≠ "")
    (htag : (P.aesGcmEnc (P.pbkdf2 machineKey salt) iv (P.utf8Enc t)).2.length = 16)
    (hdec : P.aesGcmDec (P.pbkdf2 machineKey salt) iv
        (P.aesGcmEnc (P.pbkdf2 machineKey salt) iv (P.utf8Enc t)).2
        (P.aesGcmEnc (P.pbkdf2 machineKey salt) iv (P.utf8Enc t)).1
        = some (P.utf8Enc t))
    (hutf : P.utf8Dec (P.utf8Enc t) = t)
    (hb64 : P.fromBase64 (P.toBase64 (salt ++ iv ++
          (P.aesGcmEnc (P.pbkdf2 machineKey salt) iv (P.utf8Enc t)).2 ++
          (P.aesGcmEnc (P.pbkdf2 machineKey salt) iv (P.utf8Enc t)).1))
        = salt ++ iv ++
          (P.aesGcmEnc (P.pbkdf2 machineKey salt) iv (P.utf8Enc t)).2 ++
          (P.aesGcmEnc (P.pbkdf2 machineKey salt) iv (P.utf8Enc t)).1)
    (hne : P.toBase64 (salt ++ iv ++
          (P.aesGcmEnc (P.pbkdf2 machineKey salt) iv (P.utf8Enc t)).2 ++
          (P.aesGcmEnc (P.pbkdf2 machineKey salt) iv (P.utf8Enc t)).1) ≠ "") :
    decrypt P machineKey (encrypt P machineKey salt iv (some t)) = some t := by
  obtain ⟨h0, h1, h2, h3⟩ := layout_slices salt iv
    (P.aesGcmEnc (P.pbkdf2 machineKey salt) iv (P.utf8Enc t)).2
    (P.aesGcmEnc (P.pbkdf2 machineKey salt) iv (P.utf8Enc t)).1
    hs hiv htag
  simp only [encrypt, if_neg ht, decrypt, if_neg hne, hb64, h0, h1, h2, h3,
    hdec, hutf]

/-- Concrete instantiation of the library primitives, used to evaluate the
crypto theorems on closed inputs.  It satisfies the hypotheses the theorems
assume of the real library: decryption inverts encryption when the IV has
length 16 and the tag matches, and fails otherwise. -/
def demoPrims : CryptoPrims where
  aesGcmEnc := fun _ _ pt => (pt, List.replicate 16 0)
  aesGcmDec := fun _ iv tag ct =>
    if iv.length = 16 ∧ tag = List.replicate 16 0 then some ct else none
  pbkdf2 := fun _ _ => List.replicate 32 0
  utf8Enc := fun s => s.data.map Char.toNat
  utf8Dec := fun l => String.mk (l.map Char.ofNat)
  toBase64 := fun l => String.mk (l.map Char.ofNat)
  fromBase64 := fun s => s.data.map Char.toNat

/-- Claim C1, counterexample: the round trip fails on the empty plaintext
(`encrypt` returns `none`, so `decrypt` returns `none`, not `some ""`), even
with primitives obeying every library guarantee and a fixed machine key. -/
theorem roundtrip_fails_on_empty :
    decrypt demoPrims (List.replicate 32 7)
      (encrypt demoPrims (List.replicate 32 7) (List.replicate 64 2)
        (List.replicate 16 3) (some "")) ≠ some "" := by
  decide

/-- Witness for `encrypt_decrypt_roundtrip` at concrete inputs. -/
theorem encrypt_decrypt_roundtrip_witness :
    decrypt demoPrims (List.replicate 32 7)
      (encrypt demoPrims (List.replicate 32 7) (List.replicate 64 2)
        (List.replicate 16 3) (some "a")) = some "a" :=
  encrypt_decrypt_roundtrip demoPrims (List.replicate 32 7) (List.replicate 64 2)
    (List.replicate 16 3) "a" (by decide) (by decide) (by decide) (by decide)
    (by decide) (by decide) (by decide) (by decide)

/-- Claim C10: `encrypt` returns `none` exactly on missing/empty input;
`decrypt` (total here, mirroring the JS `try/catch`) returns `none` on
missing/empty input, on base64 input decoding to fewer than the 96 bytes
needed for salt, IV and tag (the library throws on a short IV or tag, which
is the hypothesis `hshort`), and on failed GCM authentication; and
`decrypt (encrypt "")` is `none` rather than `""`. -/
theorem crypto_degenerate (P : CryptoPrims) (machineKey salt iv : List Nat)
    (s : String)
    (hshort : ∀ key iv' tag ct, iv'.length ≠ 16 ∨ tag.length ≠ 16 →
      P.aesGcmDec key iv' tag ct = none) :
    (∀ t : Option String,
      (encrypt P machineKey salt iv t = none ↔ t = none ∨ t = some "")) ∧
    decrypt P machineKey none = none ∧
    decrypt P machineKey (some "") = none ∧
    (s ≠ "" → (P.fromBase64 s).length < 96 →
      decrypt P machineKey (some s) = none) ∧
    (∀ s' : String, s' ≠ "" →
      P.aesGcmDec (P.pbkdf2 machineKey (subarray (P.fromBase64 s') 0 SALT_LENGTH))
        (subarray (P.fromBase64 s') SALT_LENGTH TAG_POSITION)
        (subarray (P.fromBase64 s') TAG_POSITION ENCRYPTED_POSITION)
        ((P.fromBase64 s').drop ENCRYPTED_POSITION) = none →
      decrypt P machineKey (some s') = none) ∧
    decrypt P machineKey (encrypt P machineKey salt iv (some "")) = none := by
  refine ⟨?_, rfl, by simp [decrypt], ?_, ?_, by simp [encrypt, decrypt]⟩
  · intro t
    match t with
    | none => simp [encrypt]
    | some t' =>
      by_cases h : t' = ""
      · subst h; simp [encrypt]
      · simp [encrypt, if_neg h, h]
  · intro hne hlen
    have hshort' : (subarray (P.fromBase64 s) SALT_LENGTH TAG_POSITION).length ≠ 16 ∨
        (subarray (P.fromBase64 s) TAG_POSITION ENCRYPTED_POSITION).length ≠ 16 := by
      simp only [subarray, List.length_take, List.length_drop, SALT_LENGTH,
        TAG_POSITION, ENCRYPTED_POSITION, IV_LENGTH, TAG_LENGTH]
      omega
    simp only [decrypt, if_neg hne]
    rw [hshort _ _ _ _ hshort']
  · intro s' hne hdec
    simp only [decrypt, if_neg hne]
    rw [hdec]

/-- The demo primitives satisfy the short-input library guarantee assumed by
`crypto_degenerate`. -/
theorem demoPrims_short : ∀ key iv' tag ct, iv'.length ≠ 16 ∨ tag.length ≠ 16 →
    demoPrims.aesGcmDec key iv' tag ct = none := by
  intro key iv' tag ct h
  simp only [demoPrims]
  rw [if_neg]
  rintro ⟨hiv, htag⟩
  rcases h with h | h
  · exact h hiv
  · exact h (htag ▸ by simp)

/-- Witness for `crypto_degenerate` at concrete inputs. -/
theorem crypto_degenerate_witness :
    decrypt demoPrims (List.replicate 32 7)
      (encrypt demoPrims (List.replicate 32 7) (List.replicate 64 2)
        (List.replicate 16 3) (some "")) = none :=
  (crypto_degenerate demoPrims (List.replicate 32 7) (List.replicate 64 2)
    (List.replicate 16 3) "x" demoPrims_short).2.2.2.2.2

/-! ## Browser wizard step machine (front-end code in `server.js`) -/

/-- Wizard state: `currentStep` (0 = login screen, 1 = api, 2 = microphone,
3 = recording, 4 = processing, 5 = speakers, 6 = export, via `getStepId`)
and the `selectedMicrophones` list of device ids. -/
structure WizardState where
  currentStep : Nat
  selectedMicrophones : List String
  deriving DecidableEq, Repr

/-- UI events modelled from the front-end handlers: successful login
(`showStep(1)`), successful API-key validation (`showStep(2)`), the
microphone loader (auto-selects the first available input), a microphone
checkbox toggle, the `next-to-recording` button, and the generic
`next-step` / `prev-step` navigation buttons. -/
inductive WizardEvent where
  | loginSuccess
  | saveApiKeySuccess
  | loadMicrophones (audioInputs : List String)
  | toggleMic (deviceId : String) (checked : Bool)
  | nextToRecording
  | nextStep
  | prevStep
  deriving DecidableEq, Repr

/-- Transition function of the wizard, one case per click handler. -/
def wizardStep (s : WizardState) : WizardEvent → WizardState
  | .loginSuccess => { s with currentStep := 1 }
  | .saveApiKeySuccess => { s with currentStep := 2 }
  | .loadMicrophones audioInputs =>
    match audioInputs with
    | [] => s
    | d :: _ => { s with selectedMicrophones := [d] }
  | .toggleMic deviceId checked =>
    if checked then
      if deviceId ∈ s.selectedMicrophones then s
      else { s with selectedMicrophones := s.selectedMicrophones ++ [deviceId] }
    else
      { s with selectedMicrophones :=
          s.selectedMicrophones.filter (fun id => id ≠ deviceId) }
  | .nextToRecording =>
    if s.selectedMicrophones.length = 0 then s else { s with currentStep := 3 }
  | .nextStep =>
    if s.currentStep < 6 then { s with currentStep := s.currentStep + 1 } else s
  | .prevStep =>
    if s.currentStep > 1 then { s with currentStep := s.currentStep - 1 } else s

/-- Initial wizard state (`currentStep = 0`, no microphone selected). -/
def wizardInit : WizardState := { currentStep := 0, selectedMicrophones := [] }

/-- States reachable from the initial state under wizard events. -/
inductive WizardReachable : WizardState → Prop where
  | init : WizardReachable wizardInit
  | step {s : WizardState} (e : WizardEvent) :
      WizardReachable s → WizardReachable (wizardStep s e)

/-- Claim C2, counterexample: the recording step (step 3) is reachable with
no microphone selected — log in, click `next-step` twice.  The generic
`next-step` handler advances the wizard without the microphone check, so the
claimed invariant "recording is entered only when at least one microphone
has been selected" fails on a reachable state. -/
theorem recording_reachable_without_mic :
    ¬ (∀ s : WizardState, WizardReachable s → s.currentStep = 3 →
        s.selectedMicrophones ≠ []) := by
  intro h
  have h1 : WizardReachable (wizardStep wizardInit .loginSuccess) :=
    WizardReachable.step _ WizardReachable.init
  have h2 := WizardReachable.step (s := wizardStep wizardInit .loginSuccess)
    .nextStep h1
  have h3 := WizardReachable.step
    (s := wizardStep (wizardStep wizardInit .loginSuccess) .nextStep)
    .nextStep h2
  have hs : wizardStep (wizardStep (wizardStep wizardInit .loginSuccess)
      .nextStep) .nextStep = { currentStep := 3, selectedMicrophones := [] } := by
    decide
  rw [hs] at h3
  exact h { currentStep := 3, selectedMicrophones := [] } h3 rfl rfl

/-- Claim C2 (amended): the `next-to-recording` handler itself is gated by
the non-empty check — with no microphone selected it leaves the state
unchanged (the wizard stays on the current step), and with a non-empty
selection it moves to the recording step — but the recording step can also
be entered through the ungated generic `next-step` handler, so the gating
holds only for the `next-to-recording` transition, not as an invariant of
all reachable states. -/
theorem next_to_recording_gated (s : WizardState) :
    (s.selectedMicrophones = [] → wizardStep s .nextToRecording = s) ∧
    (s.selectedMicrophones ≠ [] →
      wizardStep s .nextToRecording = { s with currentStep := 3 }) ∧
    (s.currentStep = 2 → s.selectedMicrophones = [] →
      (wizardStep s .nextToRecording).currentStep = 2) := by
  refine ⟨?_, ?_, ?_⟩
  · intro h
    simp [wizardStep, h]
  · intro h
    simp [wizardStep, List.length_eq_zero, h]
  · intro hstep h
    simp [wizardStep, h, hstep]

/-- Witness for `next_to_recording_gated` at a concrete state. -/
theorem next_to_recording_gated_witness :
    wizardStep { currentStep := 2, selectedMicrophones := [] }
      .nextToRecording = { currentStep := 2, selectedMicrophones := [] } :=
  (next_to_recording_gated { currentStep := 2, selectedMicrophones := [] }).1 rfl

/-! ## Transcript review and export (front-end code in `server.js`) -/

/-- A transcript segment as returned by the transcription API: start/end
offsets in seconds and the transcribed text. -/
structure Segment where
  start : ℚ
  «end» : ℚ
  text : String
  deriving DecidableEq, Repr

/-- One entry of the analysis array returned by `/api/analyze-transcript`. -/
structure SegmentAnalysis where
  segmentIndex : Nat
  isWorkRelated : Bool
  topic : String
  deriving DecidableEq, Repr

/-- Initial checked state of a segment's checkbox in
`displayTranscriptReview`: the `isWorkRelated` flag of the analysis entry
found for the segment's index, defaulting to `true` when no entry matches
(`analysisData.find(...) || { isWorkRelated: true, ... }`). -/
def initialChecked (analysisData : List SegmentAnalysis) (index : Nat) : Bool :=
  match analysisData.find? (fun a => a.segmentIndex == index) with
  | some a => a.isWorkRelated
  | none => true

/-- JS `x || 'Unknown Speaker'` on a possibly-missing string
(`speakerAssignments[index] || 'Unknown Speaker'`): the fallback is used when
the entry is missing or the empty string. -/
def orUnknown (assigned : Option String) : String :=
  match assigned with
  | some s => if s = "" then "Unknown Speaker" else s
  | none => "Unknown Speaker"

/-- A line sent to `/api/generate-documents`. -/
structure TranscriptLine where
  speaker : String
  text : String
  deriving DecidableEq, Repr

/-- The export handler's loop: iterate over the segment checkboxes with
their index, and for each checked box whose segment exists push
`{ speaker: speakerAssignments[index] || 'Unknown Speaker', text }`. -/
def exportLines (segments : List Segment) : List Bool → Nat →
    (Nat → Option String) → List TranscriptLine
  | [], _, _ => []
  | c :: cs, i, assign =>
    (match segments[i]? with
     | some seg =>
       if c then [{ speaker := orUnknown (assign i), text := seg.text }] else []
     | none => []) ++ exportLines segments cs (i + 1) assign

/-- The `skip-speakers` handler: reset the assignment map, then assign
`"Unknown Speaker"` to every checked segment index. -/
def skipSpeakers (checked : List Bool) : Nat → Option String :=
  fun i => match checked[i]? with
  | some true => some "Unknown Speaker"
  | _ => none

/-- Helper: the texts of the exported lines are the texts of the checked
segments, in order, starting from index `i`. -/
theorem exportLines_texts (segments : List Segment) :
    ∀ (cs : List Bool) (i : Nat) (assign : Nat → Option String),
      segments.length = i + cs.length →
      (exportLines segments cs i assign).map TranscriptLine.text
        = (((segments.drop i).zip cs).filter (fun p => p.2)).map
            (fun p => p.1.text) := by
  intro cs
  induction cs with
  | nil =>
    intro i assign hlen
    simp only [List.length_nil, Nat.add_zero] at hlen
    have : segments.drop i = [] := List.drop_of_length_le (by omega)
    simp [exportLines, this]
  | cons c cs ih =>
    intro i assign hlen
    have hi : i < segments.length := by simp at hlen; omega
    have hdrop : segments.drop i = segments[i] :: segments.drop (i + 1) :=
      List.drop_eq_getElem_cons hi
    have hget : segments[i]? = some segments[i] := List.getElem?_eq_getElem hi
    have hlen' : segments.length = (i + 1) + cs.length := by simp at hlen ⊢; omega
    rw [exportLines, hget, hdrop, List.zip_cons_cons]
    cases c with
    | true => simp [List.filter_cons, ih (i + 1) assign hlen']
    | false => simp [List.filter_cons, ih (i + 1) assign hlen']

/-- Helper: every exported line comes from a checked segment index and
carries that index's assignment (or the fallback). -/
theorem exportLines_mem (segments : List Segment) :
    ∀ (cs : List Bool) (i : Nat) (assign : Nat → Option String)
      (l : TranscriptLine), l ∈ exportLines segments cs i assign →
      ∃ j seg, i ≤ j ∧ cs[j - i]? = some true ∧ segments[j]? = some seg ∧
        l.text = seg.text ∧ l.speaker = orUnknown (assign j) := by
  intro cs
  induction cs with
  | nil => intro i assign l hl; simp [exportLines] at hl
  | cons c cs ih =>
    intro i assign l hl
    rw [exportLines] at hl
    rcases List.mem_append.1 hl with hl | hl
    · match hseg : segments[i]? with
      | some seg =>
        rw [hseg] at hl
        cases c with
        | true =>
          simp at hl
          refine ⟨i, seg, le_refl i, ?_, hseg, by rw [hl], by rw [hl]⟩
          simp
        | false => simp at hl
      | none => rw [hseg] at hl; simp at hl
    · obtain ⟨j, seg, hij, hcs, hseg, htext, hsp⟩ := ih (i + 1) assign l hl
      refine ⟨j, seg, by omega, ?_, hseg, htext, hsp⟩
      have : j - i = (j - (i + 1)) + 1 := by omega
      rw [this, List.getElem?_cons_succ]
      exact hcs

/-- Claim C3: a segment's `isWorkRelated` label only determines the initial
checked state of its checkbox (checked when work-related, unchecked when
casual, defaulting to checked when no analysis entry matches the index), and
the exported transcript texts are exactly the texts of the segments whose
checkboxes are checked at export time, in segment-index order.  (The export
loop `exportLines` takes no analysis argument at all, so the label has no
other influence.) -/
theorem classification_only_filter (analysisData : List SegmentAnalysis)
    (index : Nat) (segments : List Segment) (checked : List Bool)
    (assign : Nat → Option String) :
    (∀ a, analysisData.find? (fun a' => a'.segmentIndex == index) = some a →
      initialChecked analysisData index = a.isWorkRelated) ∧
    (analysisData.find? (fun a' => a'.segmentIndex == index) = none →
      initialChecked analysisData index = true) ∧
    (segments.length = checked.length →
      (exportLines segments checked 0 assign).map TranscriptLine.text
        = ((segments.zip checked).filter (fun p => p.2)).map
            (fun p => p.1.text)) := by
  refine ⟨?_, ?_, ?_⟩
  · intro a ha; simp [initialChecked, ha]
  · intro ha; simp [initialChecked, ha]
  · intro hlen
    have := exportLines_texts segments checked 0 assign (by omega)
    rw [this, List.drop_zero]

/-- Witness for `classification_only_filter` at concrete inputs. -/
theorem classification_only_filter_witness :
    (exportLines [{ start := 0, «end» := 1, text := "hello" },
        { start := 1, «end» := 2, text := "lunch" }] [true, false] 0
        (fun _ => none)).map TranscriptLine.text
      = (([({ start := 0, «end» := 1, text := "hello" } : Segment),
          { start := 1, «end» := 2, text := "lunch" }].zip
            [true, false]).filter (fun p => p.2)).map (fun p => p.1.text) :=
  (classification_only_filter []
    0 [{ start := 0, «end» := 1, text := "hello" },
       { start := 1, «end» := 2, text := "lunch" }] [true, false]
    (fun _ => none)).2.2 rfl

/-- Claim C4: every exported transcript line carries a speaker name — the
assignment stored for its segment index, or `"Unknown Speaker"` when none
exists — and the `skip-speakers` handler assigns `"Unknown Speaker"` to
every checked segment, so under it every exported line's speaker is
`"Unknown Speaker"`. -/
theorem speaker_names_total (segments : List Segment) (checked : List Bool)
    (assign : Nat → Option String) :
    (∀ l ∈ exportLines segments checked 0 assign, ∃ j seg,
        checked[j]? = some true ∧ segments[j]? = some seg ∧
        l.text = seg.text ∧ l.speaker = orUnknown (assign j)) ∧
    (∀ j, assign j = none → orUnknown (assign j) = "Unknown Speaker") ∧
    (∀ i, checked[i]? = some true →
      skipSpeakers checked i = some "Unknown Speaker") ∧
    (∀ l ∈ exportLines segments checked 0 (skipSpeakers checked),
        l.speaker = "Unknown Speaker") := by
  refine ⟨?_, ?_, ?_, ?_⟩
  · intro l hl
    obtain ⟨j, seg, _, hcs, hseg, htext, hsp⟩ :=
      exportLines_mem segments checked 0 assign l hl
    exact ⟨j, seg, by simpa using hcs, hseg, htext, hsp⟩
  · intro j hj; simp [orUnknown, hj]
  · intro i hi; simp [skipSpeakers, hi]
  · intro l hl
    obtain ⟨j, seg, _, hcs, hseg, htext, hsp⟩ :=
      exportLines_mem segments checked 0 (skipSpeakers checked) l hl
    rw [hsp, skipSpeakers]
    simp only [Nat.sub_zero] at hcs
    rw [hcs]
    simp [orUnknown]

/-- Witness for `speaker_names_total` at concrete inputs. -/
theorem speaker_names_total_witness :
    TranscriptLine.speaker { speaker := "Unknown Speaker", text := "hello" }
      = "Unknown Speaker" :=
  (speaker_names_total [{ start := 0, «end» := 1, text := "hello" }] [true]
    (fun _ => none)).2.2.2 { speaker := "Unknown Speaker", text := "hello" }
    (by decide)

/-! ## Document generation (`/api/generate-documents` in `server.js`) -/

/-- A discussion topic in the summary payload. -/
structure DiscussionTopic where
  title : String
  content : String
  deriving DecidableEq, Repr

/-- An action item in the summary payload. -/
structure ActionItem where
  task : String
  assignee : String
  deadline : String
  deriving DecidableEq, Repr

/-- A paragraph of a generated Word document: its concatenated run text and
its heading level (`none` for body text). -/
structure DocParagraph where
  text : String
  heading : Option Nat
  deriving DecidableEq, Repr

/-- A generated Word document, as the ordered list of its paragraphs. -/
structure WordDoc where
  children : List DocParagraph
  deriving DecidableEq, Repr

/-- The request body of `/api/generate-documents`. -/
structure GenerateRequest where
  title : String
  date : String
  dateObject : String
  participants : List String
  summary : String
  keyPoints : List String
  topics : List DiscussionTopic
  actionItems : List ActionItem
  transcriptLines : List TranscriptLine

/-- Text of one numbered action-item paragraph. -/
def actionItemText (idx : Nat) (a : ActionItem) : String :=
  toString (idx + 1) ++ ". " ++ a.task ++ " - Assignee: " ++ a.assignee ++
    (if a.deadline ≠ "Not specified" then " - Due: " ++ a.deadline else "")

/-- The summary document built by the route handler. -/
def buildSummaryDoc (r : GenerateRequest) : WordDoc :=
  { children :=
      [{ text := r.date ++ " – " ++ r.title ++ " – Summary", heading := some 1 },
       { text := "Date: " ++ r.dateObject, heading := none },
       { text := "Participants", heading := some 2 }] ++
      r.participants.map (fun p => { text := p, heading := none }) ++
      [{ text := "Executive Summary", heading := some 2 },
       { text := r.summary, heading := none },
       { text := "Key Points", heading := some 2 }] ++
      r.keyPoints.map (fun p => { text := p, heading := none }) ++
      [{ text := "Discussion Topics", heading := some 2 }] ++
      r.topics.flatMap (fun t =>
        [{ text := t.title, heading := some 3 },
         { text := t.content, heading := none }]) ++
      [{ text := "Action Items", heading := some 2 }] ++
      r.actionItems.enum.map (fun p =>
        { text := actionItemText p.1 p.2, heading := none }) }

/-- The transcript document built by the route handler: heading, date line,
"Full Transcript" heading, then one paragraph per transcript line whose text
is `"[" ++ speaker ++ "] "` followed by the line text. -/
def buildTranscriptDoc (r : GenerateRequest) : WordDoc :=
  { children :=
      [{ text := r.date ++ " – " ++ r.title ++ " – Transcript", heading := some 1 },
       { text := "Date: " ++ r.dateObject, heading := none },
       { text := "Full Transcript", heading := some 2 }] ++
      r.transcriptLines.map (fun l =>
        { text := "[" ++ l.speaker ++ "] " ++ l.text, heading := none }) }

/-- The success path of `/api/generate-documents` builds exactly these two
documents. -/
def generateDocuments (r : GenerateRequest) : WordDoc × WordDoc :=
  (buildSummaryDoc r, buildTranscriptDoc r)

/-- Claim C5: every successful `/api/generate-documents` request builds
exactly two documents — a summary titled `"<date> – <title> – Summary"` and
a transcript titled `"<date> – <title> – Transcript"` — and the transcript
document contains, after its three fixed leading paragraphs, exactly one
paragraph per supplied transcript line, prefixed with `"[<speaker>] "`. -/
theorem generate_documents_two_docs (r : GenerateRequest) :
    (generateDocuments r).1.children.head?
      = some { text := r.date ++ " – " ++ r.title ++ " – Summary",
               heading := some 1 } ∧
    (generateDocuments r).2.children.head?
      = some { text := r.date ++ " – " ++ r.title ++ " – Transcript",
               heading := some 1 } ∧
    (generateDocuments r).2.children.drop 3
      = r.transcriptLines.map (fun l =>
          { text := "[" ++ l.speaker ++ "] " ++ l.text, heading := none }) :=
  ⟨rfl, rfl, rfl⟩

/-! ## Authentication (`/api/auth/login` in `server.js`) -/

/-- A user document from the `users` collection. -/
structure User where
  id : String
  email : String
  passwordHash : String
  deriving DecidableEq, Repr

/-- The mutable part of the Express session touched by login. -/
structure Session where
  userId : Option String
  userEmail : Option String
  deriving DecidableEq, Repr

/-- Response of the login route: HTTP status, error message (if any) and the
session after the request. -/
structure LoginResult where
  status : Nat
  error : Option String
  session : Session
  deriving DecidableEq, Repr

/-- JS falsiness of a possibly-missing string (`!email`). -/
def falsyStr : Option String → Bool
  | none => true
  | some s => s = ""

/-- `findUserByEmail`: first user whose email matches, `null` when none. -/
def findUserByEmail (users : List User) (email : String) : Option User :=
  users.find? (fun u => u.email == email)

/-- The `/api/auth/login` handler.  `bcryptCompare` abstracts
`bcrypt.compare`; `db = none` models an unconfigured database, in which case
`findUserByEmail` throws and the catch-all returns 500. -/
def login (db : Option (List User)) (bcryptCompare : String → String → Bool)
    (session : Session) (email password : Option String) : LoginResult :=
  if falsyStr email || falsyStr password then
    { status := 400, error := some "Email and password are required",
      session := session }
  else
    match db with
    | none =>
      { status := 500, error := some "Database not configured",
        session := session }
    | some users =>
      match findUserByEmail users (email.getD "") with
      | none =>
        { status := 401, error := some "Invalid email or password",
          session := session }
      | some user =>
        if bcryptCompare (password.getD "") user.passwordHash then
          { status := 200, error := none,
            session := { userId := some user.id, userEmail := some user.email } }
        else
          { status := 401, error := some "Invalid email or password",
            session := session }

/-- Claim C6: login responds 400 when email or password is absent (falsy);
responds 401 with the same message "Invalid email or password" both when no
user has the given email and when the bcrypt comparison fails; and the
session's `userId`/`userEmail` are set only when the comparison succeeds. -/
theorem login_error_behaviour (db : List User)
    (bcryptCompare : String → String → Bool) (session : Session)
    (email password : Option String) :
    ((falsyStr email || falsyStr password) = true →
      (login (some db) bcryptCompare session email password).status = 400) ∧
    ((falsyStr email || falsyStr password) = false →
      findUserByEmail db (email.getD "") = none →
      (login (some db) bcryptCompare session email password).status = 401 ∧
      (login (some db) bcryptCompare session email password).error
        = some "Invalid email or password") ∧
    (∀ user, (falsyStr email || falsyStr password) = false →
      findUserByEmail db (email.getD "") = some user →
      bcryptCompare (password.getD "") user.passwordHash = false →
      (login (some db) bcryptCompare session email password).status = 401 ∧
      (login (some db) bcryptCompare session email password).error
        = some "Invalid email or password") ∧
    ((login (some db) bcryptCompare session email password).session ≠ session →
      ∃ user, findUserByEmail db (email.getD "") = some user ∧
        bcryptCompare (password.getD "") user.passwordHash = true ∧
        (login (some db) bcryptCompare session email password).session
          = { userId := some user.id, userEmail := some user.email }) := by
  refine ⟨?_, ?_, ?_, ?_⟩
  · intro h
    simp [login, h]
  · intro h hfind
    simp [login, h, hfind]
  · intro user h hfind hcmp
    simp [login, h, hfind, hcmp]
  · intro hne
    by_cases h : (falsyStr email || falsyStr password) = true
    · exact absurd (by simp [login, h]) hne
    · rw [Bool.not_eq_true] at h
      match hfind : findUserByEmail db (email.getD "") with
      | none => exact absurd (by simp [login, h, hfind]) hne
      | some user =>
        by_cases hcmp : bcryptCompare (password.getD "") user.passwordHash = true
        · exact ⟨user, rfl, hcmp, by simp [login, h, hfind, hcmp]⟩
        · rw [Bool.not_eq_true] at hcmp
          exact absurd (by simp [login, h, hfind, hcmp]) hne

/-- Witness for `login_error_behaviour` at concrete inputs (wrong password). -/
theorem login_error_behaviour_witness :
    (login (some [{ id := "u1", email := "a@b.c", passwordHash := "pw" }])
      (fun p h => p == h) { userId := none, userEmail := none }
      (some "a@b.c") (some "wrong")).status = 401 :=
  ((login_error_behaviour [{ id := "u1", email := "a@b.c", passwordHash := "pw" }]
    (fun p h => p == h) { userId := none, userEmail := none }
    (some "a@b.c") (some "wrong")).2.2.1
    { id := "u1", email := "a@b.c", passwordHash := "pw" }
    (by decide) (by decide) (by decide)).1

/-! ## Speaker snippet sampling (`/api/extract-speaker-snippets`) -/

/-- A speaker sample pushed by the sampling loop. -/
structure SpeakerSample where
  sampleIndex : Nat
  segmentIndex : Nat
  startTime : ℚ
  endTime : ℚ
  text : String
  deriving DecidableEq, Repr

/-- Preview text of a sample: the first 100 characters of the segment text,
with an ellipsis when the text is longer. -/
def sampleText (t : String) : String :=
  t.take 100 ++ (if t.length > 100 then "..." else "")

/-- The sample pushed for segment `seg` at index `i` when `n` samples have
been collected so far: it starts at the segment's start and ends at
`min (start + 5) end` (`sampleDuration = 5`). -/
def mkSample (i : Nat) (seg : Segment) (n : Nat) : SpeakerSample :=
  { sampleIndex := n, segmentIndex := i, startTime := seg.start,
    endTime := min (seg.start + 5) seg.«end», text := sampleText seg.text }

/-- The sampling loop of `/api/extract-speaker-snippets`: walk the segments
with index `i`, push a sample whenever the segment's start is at least 15
seconds past the last sample time (initially 0, `minGapBetweenSamples = 15`),
and stop once 8 samples have been collected. -/
def snippetLoop : List Segment → Nat → ℚ → List SpeakerSample →
    List SpeakerSample
  | [], _, _, acc => acc
  | seg :: rest, i, lastSampleTime, acc =>
    if 15 ≤ seg.start - lastSampleTime then
      if 8 ≤ (acc ++ [mkSample i seg acc.length]).length then
        acc ++ [mkSample i seg acc.length]
      else snippetLoop rest (i + 1) seg.start (acc ++ [mkSample i seg acc.length])
    else snippetLoop rest (i + 1) lastSampleTime acc

/-- The `/api/extract-speaker-snippets` handler: 400 (`none`) when the audio
path is falsy or the segment list is missing or empty, else the sampled
list. -/
def extractSpeakerSnippets (audioPath : Option String)
    (segments : Option (List Segment)) : Option (List SpeakerSample) :=
  match segments with
  | none => none
  | some segs =>
    if falsyStr audioPath ∨ segs.length = 0 then none
    else some (snippetLoop segs 0 0 [])

/-- Helper: every sample produced by the loop (beyond those already in the
accumulator) is cut from the segment at its `segmentIndex` in the original
list: its start time is that segment's start and its end time is
`min (start + 5, end)`. -/
theorem snippetLoop_from_segment (orig : List Segment) :
    ∀ (l : List Segment) (i : Nat) (lastT : ℚ) (acc : List SpeakerSample),
      orig.drop i = l →
      (∀ s ∈ acc, ∃ seg, orig[s.segmentIndex]? = some seg ∧
        s.startTime = seg.start ∧ s.endTime = min (seg.start + 5) seg.«end») →
      ∀ s ∈ snippetLoop l i lastT acc, ∃ seg,
        orig[s.segmentIndex]? = some seg ∧ s.startTime = seg.start ∧
        s.endTime = min (seg.start + 5) seg.«end» := by
  intro l
  induction l with
  | nil => intro i lastT acc _ hacc s hs; exact hacc s hs
  | cons seg rest ih =>
    intro i lastT acc hdrop hacc s hs
    have hi : i < orig.length := by
      by_contra hge
      rw [List.drop_of_length_le (by omega)] at hdrop
      exact List.cons_ne_nil seg rest hdrop.symm
    have hgeti : orig[i]? = some seg := by
      rw [List.getElem?_eq_getElem hi]
      have := List.drop_eq_getElem_cons hi
      rw [hdrop] at this
      exact congrArg some (List.head_eq_of_cons_eq this.symm)
    have hdrop' : orig.drop (i + 1) = rest := by
      have := List.drop_eq_getElem_cons hi
      rw [hdrop] at this
      exact (List.tail_eq_of_cons_eq this).symm
    rw [snippetLoop] at hs
    by_cases hc : 15 ≤ seg.start - lastT
    · rw [if_pos hc] at hs
      have hacc' : ∀ s' ∈ acc ++ [mkSample i seg acc.length], ∃ seg',
          orig[s'.segmentIndex]? = some seg' ∧ s'.startTime = seg'.start ∧
          s'.endTime = min (seg'.start + 5) seg'.«end» := by
        intro s' hs'
        rcases List.mem_append.1 hs' with h | h
        · exact hacc s' h
        · rcases List.mem_singleton.1 h with rfl
          exact ⟨seg, hgeti, rfl, rfl⟩
      by_cases hlen : 8 ≤ (acc ++ [mkSample i seg acc.length]).length
      · rw [if_pos hlen] at hs
        exact hacc' s hs
      · rw [if_neg hlen] at hs
        exact ih (i + 1) seg.start _ hdrop' hacc' s hs
    · rw [if_neg hc] at hs
      exact ih (i + 1) lastT acc hdrop' hacc s hs

/-- Claim C7: when every segment satisfies `start ≤ end`, every sample
returned by `/api/extract-speaker-snippets` satisfies
`startTime ≤ endTime`, its `startTime` is the start of the segment it was
taken from, and its `endTime` is `min (start + 5) end` of that segment, so
it never exceeds the segment's end. -/
theorem snippets_inside_segments (audioPath : Option String)
    (segs : List Segment) (out : List SpeakerSample)
    (hmono : ∀ seg ∈ segs, seg.start ≤ seg.«end»)
    (hout : extractSpeakerSnippets audioPath (some segs) = some out) :
    ∀ s ∈ out, ∃ seg, segs[s.segmentIndex]? = some seg ∧
      s.startTime = seg.start ∧ s.endTime = min (seg.start + 5) seg.«end» ∧
      s.endTime ≤ seg.«end» ∧ s.startTime ≤ s.endTime := by
  intro s hs
  have hloop : ∀ s ∈ snippetLoop segs 0 0 [], ∃ seg,
      segs[s.segmentIndex]? = some seg ∧ s.startTime = seg.start ∧
      s.endTime = min (seg.start + 5) seg.«end» :=
    snippetLoop_from_segment segs segs 0 0 [] (by simp) (by simp)
  have hsout : s ∈ snippetLoop segs 0 0 [] := by
    simp only [extractSpeakerSnippets] at hout
    by_cases hc : (falsyStr audioPath = true) ∨ segs.length = 0
    · rw [if_pos hc] at hout; exact absurd hout (by simp)
    · rw [if_neg hc] at hout
      injection hout with hout
      rw [hout]; exact hs
  obtain ⟨seg, hget, hst, hend⟩ := hloop s hsout
  have hseg : seg ∈ segs := by
    rcases List.getElem?_eq_some_iff.1 hget with ⟨h, hv⟩
    exact hv ▸ List.getElem_mem h
  refine ⟨seg, hget, hst, hend, ?_, ?_⟩
  · rw [hend]; exact min_le_right _ _
  · rw [hst, hend]
    exact le_min (by linarith) (hmono seg hseg)

/-- A concrete segment used by the snippet witnesses. -/
def demoSeg : Segment := { start := 20, «end» := 30, text := "hi" }

/-- The sample the loop produces from `demoSeg`. -/
def demoSample : SpeakerSample := mkSample 0 demoSeg 0

/-- Witness for `snippets_inside_segments` at a concrete segment list. -/
theorem snippets_inside_segments_witness :
    demoSample.startTime ≤ demoSample.endTime := by
  have h1 : snippetLoop [demoSeg] 0 0 [] = [mkSample 0 demoSeg 0] := by
    rw [snippetLoop, if_pos (by norm_num [demoSeg]), if_neg (by norm_num)]
    rw [snippetLoop, List.nil_append, List.length_nil]
  have hmem : demoSample ∈ snippetLoop [demoSeg] 0 0 [] := by
    rw [h1, demoSample]
    exact List.mem_singleton.2 rfl
  have := snippets_inside_segments (some "audio.webm") [demoSeg]
    (snippetLoop [demoSeg] 0 0 [])
    (by intro seg hseg; simp [demoSeg] at hseg; rw [hseg]; norm_num)
    (by rw [extractSpeakerSnippets, if_neg (by simp [falsyStr])])
    demoSample hmem
  obtain ⟨seg, _, _, _, _, hle⟩ := this
  exact hle

/-- Helper: a successful `/api/extract-speaker-snippets` response is exactly
the output of the sampling loop started at index 0, last-sample time 0 and
empty accumulator. -/
theorem extract_eq_loop (audioPath : Option String) (segs : List Segment)
    (out : List SpeakerSample)
    (hout : extractSpeakerSnippets audioPath (some segs) = some out) :
    out = snippetLoop segs 0 0 [] := by
  simp only [extractSpeakerSnippets] at hout
  by_cases hc : (falsyStr audioPath = true) ∨ segs.length = 0
  · rw [if_pos hc] at hout; exact absurd hout (by simp)
  · rw [if_neg hc] at hout
    injection hout with hout
    exact hout.symm

/-- Helper: the sampling loop only ever appends to its accumulator. -/
theorem snippetLoop_append :
    ∀ (l : List Segment) (i : Nat) (lastT : ℚ) (acc : List SpeakerSample),
      ∃ extra, snippetLoop l i lastT acc = acc ++ extra := by
  intro l
  induction l with
  | nil =>
    intro i lastT acc
    exact ⟨[], by rw [snippetLoop, List.append_nil]⟩
  | cons seg rest ih =>
    intro i lastT acc
    rw [snippetLoop]
    by_cases hc : 15 ≤ seg.start - lastT
    · rw [if_pos hc]
      by_cases hlen : 8 ≤ (acc ++ [mkSample i seg acc.length]).length
      · rw [if_pos hlen]
        exact ⟨[mkSample i seg acc.length], rfl⟩
      · rw [if_neg hlen]
        obtain ⟨extra, hex⟩ :=
          ih (i + 1) seg.start (acc ++ [mkSample i seg acc.length])
        exact ⟨[mkSample i seg acc.length] ++ extra,
          by rw [hex, List.append_assoc]⟩
    · rw [if_neg hc]
      exact ih (i + 1) lastT acc

/-- Helper: starting with fewer than 8 collected samples, the loop never
returns more than 8. -/
theorem snippetLoop_length_le :
    ∀ (l : List Segment) (i : Nat) (lastT : ℚ) (acc : List SpeakerSample),
      acc.length < 8 → (snippetLoop l i lastT acc).length ≤ 8 := by
  intro l
  induction l with
  | nil => intro i lastT acc h; rw [snippetLoop]; omega
  | cons seg rest ih =>
    intro i lastT acc h
    rw [snippetLoop]
    by_cases hc : 15 ≤ seg.start - lastT
    · rw [if_pos hc]
      by_cases hlen : 8 ≤ (acc ++ [mkSample i seg acc.length]).length
      · rw [if_pos hlen]
        simp only [List.length_append, List.length_singleton] at hlen ⊢
        omega
      · rw [if_neg hlen]
        apply ih
        omega
    · rw [if_neg hc]
      exact ih i.succ lastT acc h

/-- Helper: when the loop starts from an empty accumulator, the first sample
it returns starts at least 15 seconds after the initial last-sample time. -/
theorem snippetLoop_head_ge :
    ∀ (l : List Segment) (i : Nat) (lastT : ℚ) (s : SpeakerSample),
      (snippetLoop l i lastT []).head? = some s → lastT + 15 ≤ s.startTime := by
  intro l
  induction l with
  | nil =>
    intro i lastT s h
    rw [snippetLoop] at h
    exact absurd h (by simp)
  | cons seg rest ih =>
    intro i lastT s h
    rw [snippetLoop] at h
    by_cases hc : 15 ≤ seg.start - lastT
    · rw [if_pos hc, if_neg (by simp)] at h
      obtain ⟨extra, hex⟩ :=
        snippetLoop_append rest (i + 1) seg.start
          ([] ++ [mkSample i seg [].length])
      rw [hex] at h
      simp only [List.nil_append, List.cons_append, List.head?_cons,
        Option.some.injEq] at h
      rw [← h]
      show lastT + 15 ≤ seg.start
      linarith
    · rw [if_neg hc] at h
      exact ih (i + 1) lastT s h

/-- Helper: the loop preserves the 15-second spacing chain, given that the
accumulator is already chained and its last sample starts at the current
last-sample time. -/
theorem snippetLoop_chain :
    ∀ (l : List Segment) (i : Nat) (lastT : ℚ) (acc : List SpeakerSample),
      List.Chain' (fun a b => a.startTime + 15 ≤ b.startTime) acc →
      (∀ a, acc.getLast? = some a → a.startTime = lastT) →
      List.Chain' (fun a b => a.startTime + 15 ≤ b.startTime)
        (snippetLoop l i lastT acc) := by
  intro l
  induction l with
  | nil => intro i lastT acc hch _; rw [snippetLoop]; exact hch
  | cons seg rest ih =>
    intro i lastT acc hch hlast
    rw [snippetLoop]
    by_cases hc : 15 ≤ seg.start - lastT
    · rw [if_pos hc]
      have hch' : List.Chain' (fun a b => a.startTime + 15 ≤ b.startTime)
          (acc ++ [mkSample i seg acc.length]) := by
        apply List.chain'_append.2
        refine ⟨hch, List.chain'_singleton _, ?_⟩
        intro a ha b hb
        have hbmk : mkSample i seg acc.length = b := by simpa using hb
        have hb' : b = mkSample i seg acc.length := hbmk.symm
        have ha' : a.startTime = lastT := hlast a (Option.mem_def.1 ha)
        rw [hb', ha']
        show lastT + 15 ≤ seg.start
        linarith
      have hlast' : ∀ a, (acc ++ [mkSample i seg acc.length]).getLast?
          = some a → a.startTime = seg.start := by
        intro a ha
        rw [List.getLast?_concat] at ha
        injection ha with ha
        rw [← ha]
        rfl
      by_cases hlen : 8 ≤ (acc ++ [mkSample i seg acc.length]).length
      · rw [if_pos hlen]
        exact hch'
      · rw [if_neg hlen]
        exact ih (i + 1) seg.start _ hch' hlast'
    · rw [if_neg hc]
      exact ih (i + 1) lastT acc hch hlast

/-- Claim C8: for a segment list with nondecreasing start offsets,
`/api/extract-speaker-snippets` returns at most 8 samples, the first sample
starts at least 15 seconds in (the minimum gap measured from the initial
last-sample time 0), and successive samples' start times differ by at least
15 seconds. -/
theorem snippets_limit_and_spacing (audioPath : Option String)
    (segs : List Segment) (out : List SpeakerSample)
    (_hsorted : List.Chain' (fun a b => a.start ≤ b.start) segs)
    (hout : extractSpeakerSnippets audioPath (some segs) = some out) :
    out.length ≤ 8 ∧
    (∀ s, out.head? = some s → 15 ≤ s.startTime) ∧
    List.Chain' (fun a b => a.startTime + 15 ≤ b.startTime) out := by
  rw [extract_eq_loop audioPath segs out hout]
  refine ⟨snippetLoop_length_le segs 0 0 [] (by simp), ?_, ?_⟩
  · intro s hs
    have := snippetLoop_head_ge segs 0 0 s hs
    linarith
  · exact snippetLoop_chain segs 0 0 [] List.chain'_nil (by simp)

/-- Witness for `snippets_limit_and_spacing` at a concrete segment list. -/
theorem snippets_limit_and_spacing_witness :
    (snippetLoop [demoSeg] 0 0 []).length ≤ 8 :=
  (snippets_limit_and_spacing (some "audio.webm") [demoSeg]
    (snippetLoop [demoSeg] 0 0 []) (List.chain'_singleton _)
    (by rw [extractSpeakerSnippets, if_neg (by simp [falsyStr])])).1

/-! ## Speaker assignment (`apply-speakers` handler in `server.js`) -/

/-- `input.value.trim() || 'Unknown Speaker'`: the effective name entered in
a speaker-name input, with a blank (all-whitespace) input falling back to
`"Unknown Speaker"`. -/
def effName (raw : String) : String :=
  if raw.trim = "" then "Unknown Speaker" else raw.trim

/-- One iteration of the closest-sample scan in `apply-speakers`: the state
is `none` while `closestSample` is null and `closestDistance` infinite, and
`some (closestDistance, closestSample.name)` afterwards.  A sample replaces
the state only when its distance to the segment start is both smaller than
the current closest distance and strictly below 60 seconds. -/
def closestStep (segStart : ℚ) (st : Option (ℚ × String))
    (p : SpeakerSample × String) : Option (ℚ × String) :=
  match st with
  | none =>
    if |segStart - p.1.startTime| < 60 then
      some (|segStart - p.1.startTime|, effName p.2)
    else none
  | some (cd, cn) =>
    if |segStart - p.1.startTime| < cd ∧ |segStart - p.1.startTime| < 60 then
      some (|segStart - p.1.startTime|, effName p.2)
    else some (cd, cn)

/-- The speaker assigned to a checked segment starting at `segStart`:
`names` are the per-sample name inputs (the `speakerSampleMap` is their
index-aligned zip with the samples, so a missing input skips the sample,
exactly like the JS `if (speakerInfo ...)` guard). -/
def assignedSpeaker (samples : List SpeakerSample) (names : List String)
    (segStart : ℚ) : String :=
  match (samples.zip names).foldl (closestStep segStart) none with
  | some (_, n) => n
  | none => "Unknown Speaker"

/-- The assignment map built by the `apply-speakers` handler: every checked
segment index is assigned `assignedSpeaker` of its segment's start (or the
default `"Unknown Speaker"` when the segment is missing); unchecked indices
get no assignment. -/
def applySpeakers (segments : List Segment) (checked : List Bool)
    (samples : List SpeakerSample) (names : List String) :
    Nat → Option String :=
  fun i =>
    match checked[i]? with
    | some true =>
      match segments[i]? with
      | some seg => some (assignedSpeaker samples names seg.start)
      | none => some "Unknown Speaker"
    | _ => none


/-- Invariant of the closest-sample fold: starting from a state that is
either empty or within 60 seconds, the result (1) is the start state or
comes from a scanned pair, (2) always stays below 60 seconds, (3) never
increases the stored distance, (4) is a lower bound on the distance of every
scanned pair, and (5) is empty only when every scanned pair is at least 60
seconds away. -/
theorem closestFold_spec (q : ℚ) :
    ∀ (l : List (SpeakerSample × String)) (st : Option (ℚ × String)),
      (st = none ∨ ∃ c n, st = some (c, n) ∧ c < 60) →
      (l.foldl (closestStep q) st = st ∨
        ∃ p ∈ l, l.foldl (closestStep q) st
          = some (|q - p.1.startTime|, effName p.2)) ∧
      (∀ c n, l.foldl (closestStep q) st = some (c, n) → c < 60) ∧
      (∀ c n, st = some (c, n) → ∃ c' n',
        l.foldl (closestStep q) st = some (c', n') ∧ c' ≤ c) ∧
      (∀ p ∈ l, ∀ c' n', l.foldl (closestStep q) st = some (c', n') →
        c' ≤ |q - p.1.startTime|) ∧
      (l.foldl (closestStep q) st = none →
        ∀ p ∈ l, 60 ≤ |q - p.1.startTime|) := by
  intro l
  induction l with
  | nil =>
    intro st hpre
    rw [List.foldl_nil]
    refine ⟨Or.inl rfl, ?_, ?_, ?_, ?_⟩
    · intro c n h
      rcases hpre with h0 | ⟨c0, n0, hst, hlt⟩
      · rw [h0] at h; cases h
      · rw [hst] at h
        injection h with h
        injection h with h1 h2
        rw [← h1]; exact hlt
    · intro c n hst
      exact ⟨c, n, hst, le_refl c⟩
    · intro p hp; cases hp
    · intro _ p hp; cases hp
  | cons p l ih =>
    intro st hpre
    rw [List.foldl_cons]
    rcases hpre with h0 | ⟨c0, n0, hst, hlt⟩
    · subst h0
      by_cases hd : |q - p.1.startTime| < 60
      · have hcs : closestStep q none p
            = some (|q - p.1.startTime|, effName p.2) := by
          rw [closestStep, if_pos hd]
        rw [hcs]
        obtain ⟨ih1, ih2, ih3, ih4, ih5⟩ :=
          ih (some (|q - p.1.startTime|, effName p.2))
            (Or.inr ⟨_, _, rfl, hd⟩)
        refine ⟨?_, ih2, ?_, ?_, ?_⟩
        · rcases ih1 with h | ⟨p', hp', h⟩
          · exact Or.inr ⟨p, List.mem_cons_self p l, h⟩
          · exact Or.inr ⟨p', List.mem_cons_of_mem p hp', h⟩
        · intro c n hc; cases hc
        · intro p' hp' c' n' hr
          rcases List.mem_cons.1 hp' with rfl | hp'
          · obtain ⟨c'', n'', hr', hle⟩ := ih3 _ _ rfl
            rw [hr] at hr'
            injection hr' with hr'
            injection hr' with hr1 hr2
            rw [hr1]; exact hle
          · exact ih4 p' hp' c' n' hr
        · intro hr
          obtain ⟨c'', n'', hr', _⟩ := ih3 _ _ rfl
          rw [hr] at hr'
          cases hr'
      · have hcs : closestStep q none p = none := by
          rw [closestStep, if_neg hd]
        rw [hcs]
        obtain ⟨ih1, ih2, ih3, ih4, ih5⟩ := ih none (Or.inl rfl)
        refine ⟨?_, ih2, ?_, ?_, ?_⟩
        · rcases ih1 with h | ⟨p', hp', h⟩
          · exact Or.inl h
          · exact Or.inr ⟨p', List.mem_cons_of_mem p hp', h⟩
        · intro c n hc; cases hc
        · intro p' hp' c' n' hr
          rcases List.mem_cons.1 hp' with rfl | hp'
          · have h60 := ih2 c' n' hr
            push_neg at hd
            linarith
          · exact ih4 p' hp' c' n' hr
        · intro hr p' hp'
          rcases List.mem_cons.1 hp' with rfl | hp'
          · push_neg at hd; exact hd
          · exact ih5 hr p' hp'
    · subst hst
      by_cases hd : |q - p.1.startTime| < c0 ∧ |q - p.1.startTime| < 60
      · have hcs : closestStep q (some (c0, n0)) p
            = some (|q - p.1.startTime|, effName p.2) := by
          rw [closestStep, if_pos hd]
        rw [hcs]
        obtain ⟨ih1, ih2, ih3, ih4, ih5⟩ :=
          ih (some (|q - p.1.startTime|, effName p.2))
            (Or.inr ⟨_, _, rfl, hd.2⟩)
        refine ⟨?_, ih2, ?_, ?_, ?_⟩
        · rcases ih1 with h | ⟨p', hp', h⟩
          · exact Or.inr ⟨p, List.mem_cons_self p l, h⟩
          · exact Or.inr ⟨p', List.mem_cons_of_mem p hp', h⟩
        · intro c n hc
          injection hc with hc
          injection hc with hc1 hc2
          obtain ⟨c', n', hr', hle⟩ := ih3 _ _ rfl
          exact ⟨c', n', hr', by rw [← hc1]; linarith [hd.1]⟩
        · intro p' hp' c' n' hr
          rcases List.mem_cons.1 hp' with rfl | hp'
          · obtain ⟨c'', n'', hr', hle⟩ := ih3 _ _ rfl
            rw [hr] at hr'
            injection hr' with hr'
            injection hr' with hr1 hr2
            rw [hr1]; exact hle
          · exact ih4 p' hp' c' n' hr
        · intro hr
          obtain ⟨c'', n'', hr', _⟩ := ih3 _ _ rfl
          rw [hr] at hr'
          cases hr'
      · have hcs : closestStep q (some (c0, n0)) p = some (c0, n0) := by
          rw [closestStep, if_neg hd]
        rw [hcs]
        obtain ⟨ih1, ih2, ih3, ih4, ih5⟩ :=
          ih (some (c0, n0)) (Or.inr ⟨_, _, rfl, hlt⟩)
        refine ⟨?_, ih2, ?_, ?_, ?_⟩
        · rcases ih1 with h | ⟨p', hp', h⟩
          · exact Or.inl h
          · exact Or.inr ⟨p', List.mem_cons_of_mem p hp', h⟩
        · intro c n hc
          injection hc with hc
          injection hc with hc1 hc2
          obtain ⟨c', n', hr', hle⟩ := ih3 _ _ rfl
          exact ⟨c', n', hr', by rw [← hc1]; exact hle⟩
        · intro p' hp' c' n' hr
          rcases List.mem_cons.1 hp' with rfl | hp'
          · rw [Classical.not_and_iff_or_not_not] at hd
            rcases hd with hd | hd
            · push_neg at hd
              obtain ⟨c'', n'', hr', hle⟩ := ih3 _ _ rfl
              rw [hr] at hr'
              injection hr' with hr'
              injection hr' with hr1 hr2
              rw [hr1]
              exact le_trans hle hd
            · push_neg at hd
              have h60 := ih2 c' n' hr
              linarith
          · exact ih4 p' hp' c' n' hr
        · intro hr
          obtain ⟨c'', n'', hr', _⟩ := ih3 _ _ rfl
          rw [hr] at hr'
          cases hr'

/-- Claim C9: when speakers are applied, each checked segment is assigned
the name computed for it — the name entered for the sample whose start time
is closest in absolute value to the segment's start, provided that distance
is strictly below 60 seconds; when no sample (with a name input) is within
60 seconds the segment gets `"Unknown Speaker"`; and a blank name input is
treated as `"Unknown Speaker"`.  Samples are paired index-wise with their
name inputs by `samples.zip names`. -/
theorem nearest_sample_propagation (segments : List Segment)
    (checked : List Bool) (samples : List SpeakerSample)
    (names : List String) (i : Nat) (seg : Segment)
    (hchk : checked[i]? = some true) (hseg : segments[i]? = some seg) :
    applySpeakers segments checked samples names i
      = some (assignedSpeaker samples names seg.start) ∧
    ((∀ p ∈ samples.zip names, 60 ≤ |seg.start - p.1.startTime|) →
      assignedSpeaker samples names seg.start = "Unknown Speaker") ∧
    ((∃ p ∈ samples.zip names, |seg.start - p.1.startTime| < 60) →
      ∃ p ∈ samples.zip names,
        assignedSpeaker samples names seg.start = effName p.2 ∧
        |seg.start - p.1.startTime| < 60 ∧
        ∀ p' ∈ samples.zip names,
          |seg.start - p.1.startTime| ≤ |seg.start - p'.1.startTime|) ∧
    (∀ raw, raw.trim = "" → effName raw = "Unknown Speaker") := by
  obtain ⟨h1, h2, h3, h4, h5⟩ :=
    closestFold_spec seg.start (samples.zip names) none (Or.inl rfl)
  refine ⟨?_, ?_, ?_, ?_⟩
  · rw [applySpeakers, hchk, hseg]
  · intro hfar
    rw [assignedSpeaker]
    rcases h1 with h | ⟨p, hp, h⟩
    · rw [h]
    · have := h2 _ _ h
      have := hfar p hp
      linarith
  · intro ⟨p0, hp0, hclose⟩
    rcases h1 with h | ⟨p, hp, h⟩
    · have := h5 h p0 hp0
      linarith
    · refine ⟨p, hp, ?_, h2 _ _ h, ?_⟩
      · rw [assignedSpeaker, h]
      · intro p' hp'
        exact h4 p' hp' _ _ h
  · intro raw hraw
    rw [effName, if_pos hraw]

/-- Witness for `nearest_sample_propagation` at concrete inputs. -/
theorem nearest_sample_propagation_witness :
    applySpeakers [demoSeg] [true] [demoSample] ["Alice"] 0
      = some (assignedSpeaker [demoSample] ["Alice"] demoSeg.start) :=
  (nearest_sample_propagation [demoSeg] [true] [demoSample] ["Alice"] 0
    demoSeg rfl rfl).1
